import Mathlib

/-!
Shallow embedding of `colorcode.py` (repository rijuvenator/qrcolorcode).

Conventions of the embedding:
* a Python `Color` is its 24-bit-style integer `value` (a `Nat`; Python ints are
  unbounded and the code never masks);
* a character is its code point (`ord`), a message (`str`) is a `List Nat` of
  code points;
* `ColorGrid.data : list[list[Color|None]]` is stored with its rows
  concatenated in row-major order (exactly the order produced by
  `ColorGrid.__iter__ = iter(it.chain(*self.data))` and walked by every
  `for i, row / for j, color` loop in the source); the source's 2-D access
  `data[i][j]` is `data[i * nCols + j]` here, and `coordFromIdx` is kept
  verbatim;
* Python exceptions (`ValueError`, `UnboundLocalError` from reading a local
  variable that was never assigned, `AttributeError` from a missing method)
  are modelled with `Except PyError`.
-/

namespace QRCC

/-- Python run-time failures that the modelled code can raise. -/
inductive PyError where
  | valueError (msg : String)
  | unboundLocalError (name : String)
  | attributeError (name : String)
deriving DecidableEq, Repr

instance {ε α : Type} [DecidableEq ε] [DecidableEq α] : DecidableEq (Except ε α) := fun x y =>
  match x, y with
  | .ok a, .ok b =>
    if h : a = b then isTrue (by rw [h]) else isFalse (by intro hc; cases hc; exact h rfl)
  | .error a, .error b =>
    if h : a = b then isTrue (by rw [h]) else isFalse (by intro hc; cases hc; exact h rfl)
  | .ok _, .error _ => isFalse (by intro hc; cases hc)
  | .error _, .ok _ => isFalse (by intro hc; cases hc)

/-- Kind tag for the three `GridCode` subclasses (`QRCode`, `BlockCode`,
`StegCode`); stands for the Python class of an object, as tested by
`isinstance` in `addCode`. -/
inductive CodeKind where
  | qr
  | block
  | steg
deriving DecidableEq, Repr

/-- Source `Color.__neg__`: XOR of the stored value with 0xFEFEFE (colorcode.py:36-37). -/
def Color.neg (c : Nat) : Nat := c ^^^ 0xFEFEFE

/-- Source `Color.__add__` / `__radd__` (colorcode.py:43-48): the left operand may be
`None` (an unset grid cell), in which case the result is just the right
operand; otherwise raw integer addition of the two values. -/
def Color.addOpt : Option Nat → Nat → Nat
  | none, v => v
  | some x, v => x + v

/-- Source `Color.fromRGB` (colorcode.py:53-57): sum of `channel * 0x10 ** power` for
`powers = [4, 2, 0]`, with `zip` truncating to the shorter list. -/
def Color.fromRGB (rgb : List Nat) : Nat :=
  ((rgb.zip [4, 2, 0]).map (fun p => p.1 * 0x10 ^ p.2)).sum

/-- Source `Coord` (colorcode.py:60-68). -/
structure Coord where
  i : Nat
  j : Nat
deriving DecidableEq, Repr

/-- Source `ColorGrid` (colorcode.py:71-95); `data` holds the rows concatenated in
row-major order (see the file header). -/
structure ColorGrid where
  nRows : Nat
  nCols : Nat
  data : List (Option Nat)
deriving DecidableEq, Repr

/-- Source `ColorGrid.__init__`: an `nRows × nCols` grid of `None` cells. -/
def ColorGrid.empty (nRows nCols : Nat) : ColorGrid :=
  ⟨nRows, nCols, List.replicate (nRows * nCols) none⟩

/-- Source `ColorGrid.area` (colorcode.py:82-83). -/
def ColorGrid.area (g : ColorGrid) : Nat := g.nRows * g.nCols

/-- Source `ColorGrid.coordFromIdx` (colorcode.py:85-86): `Coord(idx // nCols, idx % nCols)`. -/
def ColorGrid.coordFromIdx (g : ColorGrid) (idx : Nat) : Coord :=
  ⟨idx / g.nCols, idx % g.nCols⟩

/-- Source `ColorGrid.fill` (colorcode.py:91-92): `data[coord.i][coord.j] = color`;
in the row-major flat representation the written position is
`coord.i * nCols + coord.j`. -/
def ColorGrid.fill (g : ColorGrid) (c : Coord) (color : Nat) : ColorGrid :=
  { g with data := g.data.set (c.i * g.nCols + c.j) (some color) }

/-- The common tail of `BlockCode.fillColors` / `StegCode.fillColors`
(colorcode.py:371-373 and 471-472): `for idx, color in enumerate(colorArray):
grid.fill(grid.coordFromIdx(idx), color)`, started at `idx`. -/
def fillSeq : ColorGrid → List Nat → Nat → ColorGrid
  | g, [], _ => g
  | g, c :: rest, idx => fillSeq (g.fill (g.coordFromIdx idx) c) rest (idx + 1)

/-- Little-endian base-`b` digits of `v` with an explicit fuel argument
(structurally recursive so the kernel can evaluate it; `fuel = v` is always
enough since the value shrinks by a factor `b ≥ 2` each step). -/
def digitsRevAux (b : Nat) : Nat → Nat → List Nat
  | 0, _ => []
  | fuel + 1, v => if v = 0 then [] else v % b :: digitsRevAux b fuel (v / b)

/-- Little-endian base-`b` digits of `v`, no leading zeros (empty for 0). -/
def digitsRev (b v : Nat) : List Nat := digitsRevAux b v v

/-- Big-endian base-`b` digit string of `v`, as produced by Python's
`hex(v)[2:]` (b = 16) and `bin(v)[2:]` (b = 2) for `v > 0`; empty for 0
(Python gives "0", which behaves identically once right-justified with
zeros, as both uses in the source do). -/
def digitsBE (b v : Nat) : List Nat := (digitsRev b v).reverse

/-- Python `str.rjust(k, "0")` on a digit string. -/
def rjust (k : Nat) (l : List Nat) : List Nat :=
  List.replicate (k - l.length) 0 ++ l

/-- Fixed-width little-endian base-`b` digits (proof-side companion of
`digitsRev`). -/
def digitsFix (b : Nat) : Nat → Nat → List Nat
  | 0, _ => []
  | k + 1, v => v % b :: digitsFix b k (v / b)

/-- Source `StegCode.ASCIILEN` (colorcode.py:327). -/
def ASCIILEN : Nat := 7

/-- Source `BlockCode.RGBLEN` (colorcode.py:377). -/
def RGBLEN : Nat := 3

/-- Source `BlockCode.charToChannel` (colorcode.py:385-387): `2 * ord(char)`. -/
def charToChannel (c : Nat) : Nat := 2 * c

/-- Source `BlockCode.channelToChar` (colorcode.py:390-392): `chr(channel // 2)`. -/
def channelToChar (ch : Nat) : Nat := ch / 2

/-- Source `itertools.batched(l, 3)`: slices of 3, last slice possibly shorter. -/
def batched3 : List Nat → List (List Nat)
  | [] => []
  | [a] => [[a]]
  | [a, b] => [[a, b]]
  | a :: b :: c :: rest => [a, b, c] :: batched3 rest

/-- The `while len(slice) < RGBLEN: slice.append(0)` padding used by both
`fillColors` methods (`BlockCode.NULL = chr(0)` has code 0,
`StegCode.NULL = 0`). -/
def padTo3 (l : List Nat) : List Nat := l ++ List.replicate (RGBLEN - l.length) 0

/-- The `colorArray` built by `BlockCode.fillColors` (colorcode.py:456-469). -/
def blockColorArray (msg : List Nat) : List Nat :=
  (batched3 msg).map (fun sl => Color.fromRGB ((padTo3 sl).map charToChannel))

/-- The bit list built by `StegCode.fillColors` (colorcode.py:347-358):
`bin(ord(char))[2:].rjust(ASCIILEN, "0")` per character, concatenated. -/
def stegBitsOf (msg : List Nat) : List Nat :=
  msg.flatMap (fun c => rjust ASCIILEN (digitsBE 2 c))

/-- The `colorArray` built by `StegCode.fillColors` (colorcode.py:360-370). -/
def stegColorArray (msg : List Nat) : List Nat :=
  (batched3 (stegBitsOf msg)).map (fun sl => Color.fromRGB (padTo3 sl))

/-- Source `BlockCode.nBlocks` (colorcode.py:408-409): `ceil(len(message) / RGBLEN)`. -/
def nBlocksBlock (msg : List Nat) : Nat := (msg.length + RGBLEN - 1) / RGBLEN

/-- Source `StegCode.nBlocks` (colorcode.py:344-345):
`ceil(len(message) * ASCIILEN / RGBLEN)`. -/
def nBlocksSteg (msg : List Nat) : Nat := (msg.length * ASCIILEN + RGBLEN - 1) / RGBLEN

/-- Executable floor square root, scanning down for the largest `k ≤ bound`
with `k * k ≤ n` (0 if none). `intSqrtAux n n` equals `Nat.sqrt n`, proved
below; it models Python's `int(math.sqrt(nBlocks))`. -/
def intSqrtAux (n : Nat) : Nat → Nat
  | 0 => 0
  | m + 1 => if (m + 1) * (m + 1) ≤ n then m + 1 else intSqrtAux n m

/-- Floor square root (`int(math.sqrt(n))` in `computeDimensions`). -/
def intSqrt (n : Nat) : Nat := intSqrtAux n n

/-- The `nRows is None and nCols is None` branch of
`BlockCode.computeDimensions` (colorcode.py:426-435): start from the floor
square root, add a row if short, then add a column if still short. -/
def computeDimensionsNN (nBlocks : Nat) : Nat × Nat :=
  let s := intSqrt nBlocks
  let r := if s * s < nBlocks then s + 1 else s
  let c := if r * s < nBlocks then s + 1 else s
  (r, c)

/-- Source `BlockCode.computeDimensions` (colorcode.py:417-454). `math.ceil(a / b)`
on exact integer inputs is modelled as `(a + b - 1) / b`. -/
def computeDimensions (nBlocks : Nat) (nRows nCols : Option Nat) :
    Except PyError (Nat × Nat) :=
  match nRows, nCols with
  | none, none => .ok (computeDimensionsNN nBlocks)
  | none, some c => .ok ((nBlocks + c - 1) / c, c)
  | some r, none => .ok (r, (nBlocks + r - 1) / r)
  | some r, some c =>
    if r * c < nBlocks then
      .error (.valueError (toString r ++ " x " ++ toString c ++
        " is insufficient; specify nCols or nRows only or neither"))
    else .ok (r, c)

/-- The message of the `ValueError` raised by `GridCode.ensurePrintableASCII`. -/
def asciiErrMsg : String := "Message must contain standard printable ASCII characters only"

/-- Source `GridCode.ensurePrintableASCII` (colorcode.py:184-190): raises `ValueError`
at the first character whose code is outside 32..126. -/
def ensurePrintableASCII : List Nat → Except PyError Unit
  | [] => .ok ()
  | c :: rest =>
    if 32 ≤ c ∧ c ≤ 126 then ensurePrintableASCII rest
    else .error (.valueError asciiErrMsg)

/-- State of a `GridCode` object: its class (`kind`), `message`, `grid`, and
the `code` attribute set by a successful `addCode` (absent — `none` — until
then; the Python code stores the composed source object, of which only the
class is ever relevant, so the kind is stored here). -/
structure GC where
  kind : CodeKind
  message : List Nat
  grid : ColorGrid
  code : Option CodeKind := none
deriving DecidableEq, Repr

/-- Source `sum(_ is not None for _ in self.grid)` (colorcode.py:493, 497). -/
def nFilled (g : ColorGrid) : Nat := g.data.countP (fun c => c.isSome)

/-- Method lookup for `blockMax`: only `QRCode` defines it
(colorcode.py:492-494, `nFilled * RGBLEN`); `BlockCode` and `StegCode` have
no such attribute (`none` = `AttributeError` on call). -/
def blockMaxQ (g : GC) : Option Nat :=
  match g.kind with
  | .qr => some (nFilled g.grid * RGBLEN)
  | .block => none
  | .steg => none

/-- Method lookup for `stegMax`: `QRCode` (colorcode.py:496-498,
`nFilled * RGBLEN // ASCIILEN`) and `BlockCode` (colorcode.py:411-412,
`area * RGBLEN // ASCIILEN`) define it; `StegCode` does not. -/
def stegMaxQ (g : GC) : Option Nat :=
  match g.kind with
  | .qr => some (nFilled g.grid * RGBLEN / ASCIILEN)
  | .block => some (g.grid.area * RGBLEN / ASCIILEN)
  | .steg => none

/-- Method lookup plus call for `skipNones`: `BlockCode` (colorcode.py:380-381)
always `False`; `QRCode` (colorcode.py:489-490) `color is None`; `StegCode`
defines none, so calling it raises `AttributeError`. -/
def skipNonesQ (k : CodeKind) (c : Option Nat) : Except PyError Bool :=
  match k with
  | .qr => .ok c.isNone
  | .block => .ok false
  | .steg => .error (.attributeError "skipNones")

/-- The transform selected by `addCode` from the source's class:
`transformBlockColor = -color` for a `BlockCode` source,
`transformStegColor = color` for a `StegCode` source (colorcode.py:176-182,
193-198). The `.qr` case is never consulted (`addCode` fails first). -/
def transformOf (k : CodeKind) : Nat → Nat :=
  match k with
  | .block => Color.neg
  | _ => id

/-- The nested `for i, row / for j, color` walk of `addCode`
(colorcode.py:208-220), expressed over the row-major cell sequence of the
target with a cursor (`colors = iter(code.grid)`) over the row-major cell
sequence of the source. A skipped target cell consumes no source cell; a
`StopIteration` (source exhausted) or a pulled `None` source cell returns
immediately, leaving every remaining target cell untouched. -/
def addWalk (tk : CodeKind) (tf : Nat → Nat) :
    List (Option Nat) → List (Option Nat) → Except PyError (List (Option Nat))
  | [], _ => .ok []
  | c :: rest, src =>
    match skipNonesQ tk c with
    | .error e => .error e
    | .ok true =>
      match addWalk tk tf rest src with
      | .ok r => .ok (c :: r)
      | .error e => .error e
    | .ok false =>
      match src with
      | [] => .ok (c :: rest)
      | none :: _ => .ok (c :: rest)
      | some s :: srcRest =>
        match addWalk tk tf rest srcRest with
        | .ok r => .ok (some (Color.addOpt c (tf s)) :: r)
        | .error e => .error e

/-- Source `GridCode.addCode` (colorcode.py:192-220). Dispatch on the source's class
assigns `msgMax` and `transformFunc` only for `BlockCode` / `StegCode`
sources; any other source reaches `len(code.message) > msgMax` with `msgMax`
unassigned (`UnboundLocalError`). An over-long message logs a warning and
returns with no mutation (and without setting `self.code`). Otherwise
`self.code = code` is recorded and the walk mutates the target grid in
place. -/
def addCode (target source : GC) : Except PyError GC :=
  match (match source.kind with
         | .block =>
           match blockMaxQ target with
           | some v => Except.ok v
           | none => Except.error (PyError.attributeError "blockMax")
         | .steg =>
           match stegMaxQ target with
           | some v => Except.ok v
           | none => Except.error (PyError.attributeError "stegMax")
         | .qr => Except.error (PyError.unboundLocalError "msgMax") :
           Except PyError Nat) with
  | .error e => .error e
  | .ok msgMax =>
    if source.message.length > msgMax then .ok target
    else
      match addWalk target.kind (transformOf source.kind) target.grid.data source.grid.data with
      | .ok d => .ok { target with code := some source.kind
                                   grid := { target.grid with data := d } }
      | .error e => .error e

/-- Source `BlockCode.__init__` (colorcode.py:394-406): validate the message, size
the grid with `computeDimensions(nBlocks, nRows, nCols)`, then `fillColors`. -/
def blockCodeInit (msg : List Nat) (nRows nCols : Option Nat) : Except PyError GC := do
  ensurePrintableASCII msg
  let dims ← computeDimensions (nBlocksBlock msg) nRows nCols
  pure ⟨.block, msg, fillSeq (ColorGrid.empty dims.1 dims.2) (blockColorArray msg) 0, none⟩

/-- The `GC` state produced by a successful `BlockCode(message)` with no
row/column constraints. -/
def mkBlockGC (msg : List Nat) : GC :=
  ⟨.block, msg,
    fillSeq
      (ColorGrid.empty (computeDimensionsNN (nBlocksBlock msg)).1
        (computeDimensionsNN (nBlocksBlock msg)).2)
      (blockColorArray msg) 0,
    none⟩

/-- Source `StegCode.__init__` (colorcode.py:330-342). -/
def stegCodeInit (msg : List Nat) (nRows nCols : Option Nat) : Except PyError GC := do
  ensurePrintableASCII msg
  let dims ← computeDimensions (nBlocksSteg msg) nRows nCols
  pure ⟨.steg, msg, fillSeq (ColorGrid.empty dims.1 dims.2) (stegColorArray msg) 0, none⟩

/-- The `GC` state produced by a successful `StegCode(message)` with no
row/column constraints. -/
def mkStegGC (msg : List Nat) : GC :=
  ⟨.steg, msg,
    fillSeq
      (ColorGrid.empty (computeDimensionsNN (nBlocksSteg msg)).1
        (computeDimensionsNN (nBlocksSteg msg)).2)
      (stegColorArray msg) 0,
    none⟩

/-- Source `QRCode.fillColors` (colorcode.py:500-504): fill `Color(0)` at every set
module of the boolean matrix. -/
def qrFill (modules : List (List Bool)) (g : ColorGrid) : ColorGrid :=
  modules.enum.foldl
    (fun acc row =>
      row.2.enum.foldl
        (fun acc2 cell => if cell.2 then acc2.fill ⟨row.1, cell.1⟩ 0 else acc2)
        acc)
    g

/-- Modelled from the spec: the external `qrcode` matrix generator (an
out-of-scope collaborator, not part of the repository sources) is abstracted
as a generator function `gen` returning the square boolean module matrix,
with `modules_count` its side length. Everything else follows
`QRCode.__init__` (colorcode.py:476-487); validation runs before the matrix
or grid is built. -/
def qrCodeInit (gen : List Nat → List (List Bool)) (msg : List Nat) :
    Except PyError GC := do
  ensurePrintableASCII msg
  let modules := gen msg
  pure ⟨.qr, msg, qrFill modules (ColorGrid.empty modules.length modules.length), none⟩

/-- Source `GridCode.fromJSON` (colorcode.py:291-323), with the JSON mapping already
parsed into the three optional message fields and the external QR generator
abstracted as `gen`. The local `gc` is assigned only inside the `if/elif`
chain; when all three fields are absent, `if gc is None` reads an unassigned
local and raises `UnboundLocalError` (the `ValueError` on line 319 is
unreachable, since every assignment to `gc` stores a constructed, non-`None`
layer). -/
def fromJSON (gen : List Nat → List (List Bool))
    (qr block steg : Option (List Nat)) : Except PyError GC := do
  let sc ← match steg with
    | some m => do pure (some (← stegCodeInit m none none))
    | none => pure none
  let bc ← match block with
    | some m => do pure (some (← blockCodeInit m none none))
    | none => pure none
  let qc ← match qr with
    | some m => do pure (some (← qrCodeInit gen m))
    | none => pure none
  match qc with
  | some q =>
    match bc with
    | some b => do
      let q2 ← addCode q b
      match sc with
      | some s => addCode q2 s
      | none => pure q2
    | none =>
      match sc with
      | some s => addCode q s
      | none => pure q
  | none =>
    match bc with
    | some b =>
      match sc with
      | some s => addCode b s
      | none => pure b
    | none =>
      match sc with
      | some s => pure s
      | none => throw (.unboundLocalError "gc")

/-- Source `itertools.batched(colorHex, 2)` (colorcode.py:268): hex-digit pairs, the
last possibly a single digit. -/
def chunkPairs : List Nat → List (List Nat)
  | [] => []
  | [a] => [[a]]
  | a :: b :: rest => [a, b] :: chunkPairs rest

/-- Source `int("".join(hexSlice), 16)` (colorcode.py:269). -/
def chunkVal (l : List Nat) : Nat := l.foldl (fun acc d => 16 * acc + d) 0

/-- The channel split of one color in `GridCode.decode` (colorcode.py:261-271):
`hex(color)[2:].rjust(6, "0")`, sliced two hex digits at a time. -/
def colorChannels (v : Nat) : List Nat :=
  (chunkPairs (rjust 6 (digitsBE 16 v))).map chunkVal

/-- The complement-undo step of `GridCode.decode` (colorcode.py:253-260): the
global `lightColoredBlocks` flag, when not `None`, decides alone (`False` →
un-XOR); otherwise a per-rect `desc` attribute equal to `"dark"` triggers the
un-XOR; otherwise the color passes through. -/
def applyHint (lightColoredBlocks : Option Bool) (desc : Option String) (c : Nat) : Nat :=
  match lightColoredBlocks with
  | some b => if b then c else Color.neg c
  | none =>
    match desc with
    | some d => if d = "dark" then Color.neg c else c
    | none => c

/-- The flat channel sequence accumulated by `GridCode.decode` over all rects
(colorcode.py:248-271), given the pre-parsed (color, desc) pairs in file
order. -/
def decodeChannels (lcb : Option Bool) (rects : List (Nat × Option String)) : List Nat :=
  rects.flatMap (fun rc => colorChannels (applyHint lcb rc.2 rc.1))

/-- The block message decoded by `GridCode.decode` (colorcode.py:272-274):
`chr(channel // 2)` per channel. -/
def decodeBlockMsg (lcb : Option Bool) (rects : List (Nat × Option String)) : List Nat :=
  (decodeChannels lcb rects).map channelToChar

/-- Source `int(bits, 2)` on a bit string (colorcode.py:284-285). -/
def intBase2 (l : List Nat) : Nat := l.foldl (fun acc d => 2 * acc + d) 0

/-- The steganography loop of `GridCode.decode` (colorcode.py:279-287): group
the LSB stream 7 bits at a time, stop at an incomplete group or at the
all-zero / all-one sentinel, else emit the 7-bit character. -/
def decodeStegLoop : List Nat → List Nat
  | b1 :: b2 :: b3 :: b4 :: b5 :: b6 :: b7 :: rest =>
    if intBase2 [b1, b2, b3, b4, b5, b6, b7] = 0 ∨
       intBase2 [b1, b2, b3, b4, b5, b6, b7] = 2 ^ 7 - 1 then []
    else intBase2 [b1, b2, b3, b4, b5, b6, b7] :: decodeStegLoop rest
  | _ => []

/-- The steganography message decoded by `GridCode.decode`
(colorcode.py:276-287): LSB (`& 1`) of every channel, then the 7-bit loop. -/
def decodeStegMsg (lcb : Option Bool) (rects : List (Nat × Option String)) : List Nat :=
  decodeStegLoop ((decodeChannels lcb rects).map (· % 2))

/-- Source `Canvas.lightColoredBlocks = isinstance(gridContainer, BlockCode)`
(colorcode.py:112). -/
def lightColored (g : GC) : Bool := g.kind == CodeKind.block

/-- The rect records written by `Canvas.getElements` (colorcode.py:128-148):
one per non-`None` cell in row-major order, carrying the color and
`desc = "light" | "dark"` according to `lightColoredBlocks`; these are what
`GridCode.decode` reads back. -/
def rectsOf (g : GC) : List (Nat × Option String) :=
  (g.grid.data.filterMap id).map
    (fun c => (c, some (if lightColored g then "light" else "dark")))

/-- Render `g` and run the block half of `GridCode.decode` on the file, with
the default `lightColoredBlocks=None`. -/
def decodeBlockOf (g : GC) : List Nat := decodeBlockMsg none (rectsOf g)

/-- Render `g` and run the steganography half of `GridCode.decode` on the
file, with the default `lightColoredBlocks=None`. -/
def decodeStegOf (g : GC) : List Nat := decodeStegMsg none (rectsOf g)

/-- Number of NUL codes appended to a length-`n` message by the slice padding
of `fillColors`: up to the next multiple of 3. -/
def npad3 (n : Nat) : Nat := (RGBLEN - n % RGBLEN) % RGBLEN

/-- A message padded with NUL codes to a multiple of 3. -/
def pad3 (msg : List Nat) : List Nat := msg ++ List.replicate (npad3 msg.length) 0

/-- The capacity query `addCode` would consult on `t` for a source of kind
`k` (`blockMax` for a Block source, `stegMax` for a Steg source; none for a
QR source, which `addCode` never dispatches on). -/
def capacityFor (t : GC) (k : CodeKind) : Option Nat :=
  match k with
  | .block => blockMaxQ t
  | .steg => stegMaxQ t
  | .qr => none

/-- The target state after `t.addCode(s)` when the call returns normally, and
`t` unchanged when it raises (used to phrase concrete-instance statements
without binders). -/
def composedOrSelf (t s : GC) : GC :=
  match addCode t s with
  | .ok g => g
  | .error _ => t

/-- Proof-side zipper for the `addCode` walk on a never-skipping target: each
pulled source color is transformed and added onto the corresponding target
cell; the target tail beyond the source is untouched. -/
def zipAddSome (tf : Nat → Nat) : List (Option Nat) → List Nat → List (Option Nat)
  | xs, [] => xs
  | [], _ => []
  | x :: xs, c :: cs => some (Color.addOpt x (tf c)) :: zipAddSome tf xs cs

/-- Proof-side overlay of two channel (or color-value) streams: pointwise sum
on the common prefix, then whichever stream is longer continues unchanged.
This is what the block target's cell values look like after a steg
composition. -/
def overlayVals : List Nat → List Nat → List Nat
  | bs, [] => bs
  | [], cs => cs
  | b :: bs, c :: cs => (b + c) :: overlayVals bs cs

/-- A concrete stand-alone QR layer state (tiny 1×1 module matrix), used to
exercise `addCode` with a QR source. -/
def qrGCex : GC :=
  ⟨.qr, [71, 52, 71], qrFill [[true]] (ColorGrid.empty 1 1), none⟩

/-- A 28-character printable message (28 = a block count of 10 on a 4×3 grid). -/
def c2b : List Nat := List.replicate 28 65

/-- The 5-character message "Hello". -/
def c2s : List Nat := [72, 101, 108, 108, 111]

/-! ## Basic facts about the embedded helpers -/

theorem intSqrtAux_eq (n : Nat) : ∀ m : Nat, intSqrtAux n m = min (Nat.sqrt n) m := by
  intro m
  induction m with
  | zero => simp [intSqrtAux]
  | succ m ih =>
    by_cases h : (m + 1) * (m + 1) ≤ n
    · have h2 : m + 1 ≤ Nat.sqrt n := Nat.le_sqrt.mpr h
      simp [intSqrtAux, h]
      omega
    · have h2 : ¬(m + 1 ≤ Nat.sqrt n) := fun hc => h (Nat.le_sqrt.mp hc)
      simp [intSqrtAux, h, ih]
      omega

theorem intSqrt_eq (n : Nat) : intSqrt n = Nat.sqrt n := by
  rw [intSqrt, intSqrtAux_eq]
  exact Nat.min_eq_left (Nat.sqrt_le_self n)

theorem cdNN_spec (n : Nat) :
    n ≤ (computeDimensionsNN n).1 * (computeDimensionsNN n).2 ∧
    (computeDimensionsNN n).1 * (computeDimensionsNN n).2 <
      n + max (computeDimensionsNN n).1 (computeDimensionsNN n).2 + 1 ∧
    (computeDimensionsNN n).2 ≤ (computeDimensionsNN n).1 := by
  have h1 : Nat.sqrt n * Nat.sqrt n ≤ n := Nat.sqrt_le n
  have h2 : n < (Nat.sqrt n + 1) * (Nat.sqrt n + 1) := Nat.lt_succ_sqrt n
  simp only [computeDimensionsNN, intSqrt_eq]
  by_cases hA : Nat.sqrt n * Nat.sqrt n < n
  · by_cases hB : (Nat.sqrt n + 1) * Nat.sqrt n < n
    · simp only [hA, if_true, hB]
      have e1 : (Nat.sqrt n + 1) * Nat.sqrt n = Nat.sqrt n * Nat.sqrt n + Nat.sqrt n := by ring
      have e2 : (Nat.sqrt n + 1) * (Nat.sqrt n + 1) =
          Nat.sqrt n * Nat.sqrt n + 2 * Nat.sqrt n + 1 := by ring
      rw [e1] at hB
      simp only [Nat.max_self, e2]
      omega
    · simp only [hA, if_true, hB, if_false]
      have e1 : (Nat.sqrt n + 1) * Nat.sqrt n = Nat.sqrt n * Nat.sqrt n + Nat.sqrt n := by ring
      rw [e1] at hB ⊢
      have e3 : max (Nat.sqrt n + 1) (Nat.sqrt n) = Nat.sqrt n + 1 := by omega
      rw [e3]
      omega
  · have hEq : Nat.sqrt n * Nat.sqrt n = n := le_antisymm h1 (not_lt.mp hA)
    simp only [hA, if_false]
    have : ¬(Nat.sqrt n * Nat.sqrt n < n) := hA
    simp only [hA, if_false, Nat.max_self]
    omega

/-! ## C6: near-square dimension computation -/

/-- C6 counterexample: `computeDimensions(2, None, None)` returns
`(rows, cols) = (2, 1)`, so `cols >= rows` fails (the row is grown first,
hence `rows >= cols`, the opposite of the claim). -/
theorem c6_counterexample :
    computeDimensions 2 none none = Except.ok (2, 1) ∧
    (computeDimensionsNN 2).2 < (computeDimensionsNN 2).1 := by decide

/-- C6 (amended): for every positive block count `n`,
`computeDimensions(n, None, None)` returns `(rows, cols)` with
`rows*cols >= n`, `rows*cols < n + max(rows, cols) + 1`, and `rows >= cols`
(the claim stated `cols >= rows`; the construction grows the row first). -/
theorem c6_near_square (n : Nat) (h : 0 < n) :
    computeDimensions n none none = Except.ok (computeDimensionsNN n) ∧
    n ≤ (computeDimensionsNN n).1 * (computeDimensionsNN n).2 ∧
    (computeDimensionsNN n).1 * (computeDimensionsNN n).2 <
      n + max (computeDimensionsNN n).1 (computeDimensionsNN n).2 + 1 ∧
    (computeDimensionsNN n).2 ≤ (computeDimensionsNN n).1 :=
  ⟨rfl, cdNN_spec n⟩

/-- C6 witness: the amended statement evaluated at `n = 3`
(dimensions `(2, 2)`). -/
theorem c6_witness :
    (0 < 3 ∧ computeDimensions 3 none none = Except.ok (2, 2)) ∧
    3 ≤ (computeDimensionsNN 3).1 * (computeDimensionsNN 3).2 :=
  ⟨⟨by decide, by have h := (c6_near_square 3 (by decide)).1; rw [h]; decide⟩,
    (c6_near_square 3 (by decide)).2.1⟩

/-! ## C9: complement is self-inverse -/

/-- C9: for every color value `c`, `-(-c) = c` — XOR with 0xFEFEFE twice is
the identity (`Color.__neg__`). -/
theorem c9_complement_involutive (c : Nat) : Color.neg (Color.neg c) = c := by
  simp [Color.neg, Nat.xor_assoc]

/-! ## C3: decode hint precedence -/

/-- C3 counterexample: with the global override present (`True`) and a
per-color hint `"dark"`, the decoder ignores the per-color hint (result for
color 0 differs from the no-override case), refuting the claim that the
per-color hint alone decides whenever it is present. -/
theorem c3_counterexample :
    applyHint (some true) (some "dark") 0 ≠ applyHint none (some "dark") 0 := by
  decide

/-- C3 (amended): the global `lightColoredBlocks` override, when supplied,
alone decides whether the complement is applied (`False` → complement); the
per-color hint is consulted only when no override is given (`"dark"` →
complement); with neither, the color passes through. -/
theorem c3_hint_precedence (c : Nat) (d : Option String) :
    applyHint (some true) d c = c ∧
    applyHint (some false) d c = Color.neg c ∧
    applyHint none (some "dark") c = Color.neg c ∧
    applyHint none (some "light") c = c ∧
    applyHint none none c = c := by
  refine ⟨rfl, rfl, ?_, ?_, rfl⟩ <;> simp [applyHint]

/-! ## C10: addCode with a QR source -/

/-- C10: calling `addCode` with a source that is neither a `BlockCode` nor a
`StegCode` (e.g. a `QRCode`) raises: neither dispatch branch assigns
`msgMax`, so `len(code.message) > msgMax` reads an unassigned local
(`UnboundLocalError`), for every target. -/
theorem c10_qr_source_unbound (t s : GC) (h : s.kind = CodeKind.qr) :
    addCode t s = Except.error (PyError.unboundLocalError "msgMax") := by
  simp [addCode, h]

/-- C10 witness: a concrete block-layer target and the concrete QR layer. -/
theorem c10_witness :
    addCode (mkBlockGC [65]) qrGCex = Except.error (PyError.unboundLocalError "msgMax") :=
  c10_qr_source_unbound _ _ rfl

/-! ## C4: advisory capacity failure leaves the target untouched -/

/-- C4: whenever the capacity query that `addCode` consults for the source's
kind is defined and the source message is longer than it, `addCode` returns
with the target completely unchanged (same grid, `self.code` not set) and
raises nothing. -/
theorem c4_capacity_abort (t s : GC) (M : Nat) (hM : capacityFor t s.kind = some M)
    (hlen : M < s.message.length) : addCode t s = Except.ok t := by
  cases hk : s.kind <;> rw [hk] at hM <;> simp only [capacityFor] at hM
  · exact absurd hM (by simp)
  · simp [addCode, hk, hM, hlen]
  · simp [addCode, hk, hM, hlen]

/-- C4 witness: a 1×1 block target has `stegMax() = 0`, so composing the
1-character steg layer aborts with the target returned byte-for-byte
unchanged. -/
theorem c4_witness :
    addCode (mkBlockGC [65, 66, 67]) (mkStegGC [65]) = Except.ok (mkBlockGC [65, 66, 67]) :=
  c4_capacity_abort _ _ 0 (by decide) (by decide)

/-! ## C5: capacity queries of the stand-alone layers -/

/-- C5 counterexample: a stand-alone `BlockCode` has no `blockMax` method at
all (the lookup is empty rather than `area * 3`, and `addCode` with a block
source onto it raises `AttributeError`), and a `StegCode` has neither
capacity query. -/
theorem c5_counterexample :
    blockMaxQ (mkBlockGC [65]) ≠ some ((mkBlockGC [65]).grid.area * RGBLEN) ∧
    stegMaxQ (mkStegGC [65]) = none ∧
    blockMaxQ (mkStegGC [65]) = none ∧
    addCode (mkBlockGC [65]) (mkBlockGC [66]) =
      Except.error (PyError.attributeError "blockMax") := by decide

/-- C5 (amended): a `BlockCode` used as a composition target reports only
`stegMax() = area() * 3 // 7`; it has no `blockMax` attribute, and a
`StegCode` has neither capacity query (both lookups fail). -/
theorem c5_capacities (g : GC) :
    (g.kind = CodeKind.block →
      stegMaxQ g = some (g.grid.area * RGBLEN / ASCIILEN) ∧ blockMaxQ g = none) ∧
    (g.kind = CodeKind.steg → stegMaxQ g = none ∧ blockMaxQ g = none) := by
  constructor <;> intro h <;> simp [stegMaxQ, blockMaxQ, h]

/-- C5 witness: the amended statement at concrete block and steg layers. -/
theorem c5_witness :
    stegMaxQ (mkBlockGC [65, 66, 67]) =
      some ((mkBlockGC [65, 66, 67]).grid.area * RGBLEN / ASCIILEN) ∧
    blockMaxQ (mkStegGC [65]) = none :=
  ⟨((c5_capacities (mkBlockGC [65, 66, 67])).1 rfl).1,
    ((c5_capacities (mkStegGC [65])).2 rfl).2⟩

/-! ## C7: whole-message assembly with no message fields -/

/-- C7 (code bug): `fromJSON` given none of the three message fields does not
reach its dedicated `ValueError` — the local `gc` is never assigned, so
`if gc is None` itself raises `UnboundLocalError`, whatever the external QR
generator is. -/
theorem c7_missing_fields_unbound (gen : List Nat → List (List Bool)) :
    fromJSON gen none none none = Except.error (PyError.unboundLocalError "gc") := rfl

/-! ## C8: printable-ASCII validation at construction -/

theorem ensurePrintableASCII_err (msg : List Nat) (h : ∃ c ∈ msg, c < 32 ∨ 126 < c) :
    ensurePrintableASCII msg = Except.error (PyError.valueError asciiErrMsg) := by
  induction msg with
  | nil => simp at h
  | cons a t ih =>
    by_cases ha : 32 ≤ a ∧ a ≤ 126
    · have ht : ∃ c ∈ t, c < 32 ∨ 126 < c := by
        rcases h with ⟨c, hc, hout⟩
        rcases List.mem_cons.mp hc with rfl | hmem
        · omega
        · exact ⟨c, hmem, hout⟩
      simp [ensurePrintableASCII, ha, ih ht]
    · simp [ensurePrintableASCII, ha]

theorem ensurePrintableASCII_ok (msg : List Nat) (h : ∀ c ∈ msg, 32 ≤ c ∧ c ≤ 126) :
    ensurePrintableASCII msg = Except.ok () := by
  induction msg with
  | nil => rfl
  | cons a t ih =>
    have ha := h a (List.mem_cons_self a t)
    simp [ensurePrintableASCII, ha, ih (fun c hc => h c (List.mem_cons_of_mem a hc))]

/-- C8: a message with any character code outside 32..126 makes all three
layer constructors fail with the validation `ValueError` (raised by
`ensurePrintableASCII` before the grid is built — in the embedding the error
is returned before any grid state exists); a message with only codes in
32..126 passes the validation step. -/
theorem c8_validation (msg : List Nat) :
    ((∃ c ∈ msg, c < 32 ∨ 126 < c) →
      blockCodeInit msg none none = Except.error (PyError.valueError asciiErrMsg) ∧
      stegCodeInit msg none none = Except.error (PyError.valueError asciiErrMsg) ∧
      ∀ gen, qrCodeInit gen msg = Except.error (PyError.valueError asciiErrMsg)) ∧
    ((∀ c ∈ msg, 32 ≤ c ∧ c ≤ 126) → ensurePrintableASCII msg = Except.ok ()) := by
  constructor
  · intro h
    have he := ensurePrintableASCII_err msg h
    refine ⟨?_, ?_, fun gen => ?_⟩ <;>
      simp [blockCodeInit, stegCodeInit, qrCodeInit, he, Bind.bind, Except.bind]
  · exact ensurePrintableASCII_ok msg

/-- C8 witness: a newline (code 10) is rejected by the block constructor; the
message "Hi" passes validation. -/
theorem c8_witness :
    blockCodeInit [10] none none = Except.error (PyError.valueError asciiErrMsg) ∧
    ensurePrintableASCII [72, 105] = Except.ok () :=
  ⟨((c8_validation [10]).1 ⟨10, by decide, by decide⟩).1,
    (c8_validation [72, 105]).2 (by decide)⟩

/-! ## Digit-string lemmas -/

theorem digitsRevAux_zero (b : Nat) : ∀ f : Nat, digitsRevAux b f 0 = [] := by
  intro f
  cases f <;> simp [digitsRevAux]

theorem digitsRevAux_fuel (b : Nat) (hb : 2 ≤ b) :
    ∀ f1 v f2 : Nat, v ≤ f1 → v ≤ f2 → digitsRevAux b f1 v = digitsRevAux b f2 v := by
  intro f1
  induction f1 with
  | zero =>
    intro v f2 h1 h2
    have : v = 0 := Nat.le_zero.mp h1
    subst this
    rw [digitsRevAux_zero, digitsRevAux_zero]
  | succ f ih =>
    intro v f2 h1 h2
    cases v with
    | zero => rw [digitsRevAux_zero, digitsRevAux_zero]
    | succ w =>
      cases f2 with
      | zero => omega
      | succ f2 =>
        simp only [digitsRevAux, Nat.succ_ne_zero, if_false]
        have hdiv : (w + 1) / b < w + 1 := Nat.div_lt_self (by omega) (by omega)
        rw [ih ((w + 1) / b) f (by omega) (by omega)]
        rw [ih ((w + 1) / b) f2 (by omega) (by omega)]

theorem digitsRev_zero (b : Nat) : digitsRev b 0 = [] := rfl

theorem digitsRev_cons (b v : Nat) (hb : 2 ≤ b) (hv : v ≠ 0) :
    digitsRev b v = v % b :: digitsRev b (v / b) := by
  unfold digitsRev
  cases v with
  | zero => exact absurd rfl hv
  | succ w =>
    simp only [digitsRevAux, Nat.succ_ne_zero, if_false]
    have hdiv : (w + 1) / b < w + 1 := Nat.div_lt_self (by omega) (by omega)
    rw [digitsRevAux_fuel b hb w ((w + 1) / b) ((w + 1) / b) (by omega) (by omega)]

theorem digitsFix_zero (b : Nat) : ∀ k : Nat, digitsFix b k 0 = List.replicate k 0 := by
  intro k
  induction k with
  | zero => rfl
  | succ k ih => simp [digitsFix, List.replicate_succ, ih]

theorem digitsFix_length (b : Nat) : ∀ k v : Nat, (digitsFix b k v).length = k := by
  intro k
  induction k with
  | zero => intro v; rfl
  | succ k ih => intro v; simp [digitsFix, ih]

theorem digitsRev_pad (b : Nat) (hb : 2 ≤ b) :
    ∀ k v : Nat, v < b ^ k →
      digitsRev b v ++ List.replicate (k - (digitsRev b v).length) 0 = digitsFix b k v := by
  intro k
  induction k with
  | zero =>
    intro v hv
    have : v = 0 := by simpa using hv
    subst this
    simp [digitsRev_zero, digitsFix]
  | succ k ih =>
    intro v hv
    by_cases hv0 : v = 0
    · subst hv0
      simp [digitsRev_zero, digitsFix_zero]
    · rw [digitsRev_cons b v hb hv0]
      have hdiv : v / b < b ^ k := by
        rw [Nat.div_lt_iff_lt_mul (by omega : 0 < b)]
        calc v < b ^ (k + 1) := hv
          _ = b ^ k * b := by ring
      have hk := ih (v / b) hdiv
      simp only [List.length_cons, List.cons_append, Nat.succ_sub_succ]
      rw [hk]
      rfl

theorem digitsRev_length_le (b : Nat) (hb : 2 ≤ b) (k v : Nat) (hv : v < b ^ k) :
    (digitsRev b v).length ≤ k := by
  have h := digitsRev_pad b hb k v hv
  have := congrArg List.length h
  simp [digitsFix_length] at this
  omega

theorem rjust_digitsBE (b k v : Nat) (hb : 2 ≤ b) (hv : v < b ^ k) :
    rjust k (digitsBE b v) = (digitsFix b k v).reverse := by
  unfold rjust digitsBE
  rw [List.length_reverse, ← digitsRev_pad b hb k v hv, List.reverse_append,
    List.reverse_replicate]

theorem foldl_digitsFix (b : Nat) :
    ∀ k v a : Nat,
      ((digitsFix b k v).reverse).foldl (fun acc d => b * acc + d) a =
        a * b ^ k + v % b ^ k := by
  intro k
  induction k with
  | zero => intro v a; simp [digitsFix, Nat.mod_one]
  | succ k ih =>
    intro v a
    simp only [digitsFix, List.reverse_cons, List.foldl_append, List.foldl_cons,
      List.foldl_nil]
    rw [ih]
    have hm : v % b ^ (k + 1) = v % b + b * (v / b % b ^ k) := by
      rw [pow_succ']
      exact Nat.mod_mul
    rw [hm]
    ring

theorem rjust_length (k : Nat) (l : List Nat) : (rjust k l).length = max k l.length := by
  simp [rjust]
  omega

/-! ## Channel-split lemmas for the decoder -/

theorem colorChannels_lt (v : Nat) (h : v < 16777216) :
    colorChannels v = [v / 65536, v / 256 % 256, v % 256] := by
  unfold colorChannels
  rw [rjust_digitsBE 16 6 v (by omega) (by norm_num; omega)]
  simp only [digitsFix, List.reverse_cons, List.reverse_nil, List.nil_append,
    List.cons_append, List.append_assoc]
  simp only [chunkPairs, chunkVal, List.map_cons, List.map_nil, List.foldl_cons,
    List.foldl_nil]
  simp only [List.cons.injEq, and_true]
  refine ⟨?_, ?_, ?_⟩ <;> omega

theorem colorChannels_packed (r g b : Nat) (hr : r < 256) (hg : g < 256) (hb2 : b < 256) :
    colorChannels (r * 65536 + g * 256 + b) = [r, g, b] := by
  rw [colorChannels_lt _ (by omega)]
  simp only [List.cons.injEq, and_true]
  refine ⟨?_, ?_, ?_⟩ <;> omega

theorem fromRGB_cons3 (x y z : Nat) : Color.fromRGB [x, y, z] = x * 65536 + y * 256 + z := by
  simp [Color.fromRGB]
  ring

theorem colorChannels_fromRGB (x y z : Nat) (hx : x < 256) (hy : y < 256) (hz : z < 256) :
    colorChannels (Color.fromRGB [x, y, z]) = [x, y, z] := by
  rw [fromRGB_cons3]
  exact colorChannels_packed x y z hx hy hz

/-! ## Grid-filling lemmas -/

theorem fillSeq_dims : ∀ (colors : List Nat) (g : ColorGrid) (idx : Nat),
    (fillSeq g colors idx).nRows = g.nRows ∧ (fillSeq g colors idx).nCols = g.nCols := by
  intro colors
  induction colors with
  | nil => intro g idx; exact ⟨rfl, rfl⟩
  | cons a t ih =>
    intro g idx
    simp only [fillSeq]
    exact ih _ _

theorem fillSeq_data :
    ∀ (colors : List Nat) (r c : Nat) (pre : List (Option Nat)) (k : Nat),
      colors.length ≤ k →
      (fillSeq ⟨r, c, pre ++ List.replicate k none⟩ colors pre.length).data =
        pre ++ colors.map some ++ List.replicate (k - colors.length) none := by
  intro colors
  induction colors with
  | nil =>
    intro r c pre k hk
    simp [fillSeq]
  | cons a t ih =>
    intro r c pre k hk
    cases k with
    | zero => simp at hk
    | succ k2 =>
      have hidx : pre.length / c * c + pre.length % c = pre.length := by
        calc pre.length / c * c + pre.length % c
            = c * (pre.length / c) + pre.length % c := by ring
          _ = pre.length := Nat.div_add_mod pre.length c
      simp only [fillSeq, ColorGrid.fill, ColorGrid.coordFromIdx]
      rw [hidx]
      have hset : (pre ++ List.replicate (k2 + 1) (none : Option Nat)).set pre.length (some a)
          = (pre ++ [some a]) ++ List.replicate k2 none := by
        rw [List.replicate_succ]
        simp [List.set_append]
      rw [hset]
      have hlen : pre.length + 1 = (pre ++ [some a]).length := by simp
      rw [hlen, ih r c (pre ++ [some a]) k2 (by simpa using hk)]
      simp [List.append_assoc]

theorem batched3_length : ∀ m : List Nat, (batched3 m).length = (m.length + 2) / 3
  | [] => by simp [batched3]
  | [a] => by simp [batched3]
  | [a, b] => by simp [batched3]
  | a :: b :: c :: rest => by
    simp only [batched3, List.length_cons, batched3_length rest]
    omega

theorem blockColorArray_length (msg : List Nat) :
    (blockColorArray msg).length = nBlocksBlock msg := by
  simp [blockColorArray, batched3_length, nBlocksBlock, RGBLEN]

theorem stegBitsOf_length (msg : List Nat) (h : ∀ c ∈ msg, c ≤ 126) :
    (stegBitsOf msg).length = ASCIILEN * msg.length := by
  induction msg with
  | nil => simp [stegBitsOf]
  | cons a t ih =>
    have ha : a ≤ 126 := h a (List.mem_cons_self a t)
    have hlt : a < 2 ^ 7 := by omega
    have hlen : (digitsBE 2 a).length ≤ 7 := by
      simpa [digitsBE] using digitsRev_length_le 2 (by omega) 7 a hlt
    simp only [stegBitsOf, List.flatMap_cons] at *
    rw [List.length_append, ih (fun c hc => h c (List.mem_cons_of_mem a hc))]
    rw [rjust_length]
    simp only [ASCIILEN, List.length_cons]
    omega

theorem stegColorArray_length (msg : List Nat) (h : ∀ c ∈ msg, c ≤ 126) :
    (stegColorArray msg).length = nBlocksSteg msg := by
  simp [stegColorArray, batched3_length, stegBitsOf_length msg h, nBlocksSteg,
    RGBLEN, ASCIILEN]
  omega

theorem mkBlockGC_data (msg : List Nat) :
    (mkBlockGC msg).grid.data =
      (blockColorArray msg).map some ++
        List.replicate
          ((computeDimensionsNN (nBlocksBlock msg)).1 *
              (computeDimensionsNN (nBlocksBlock msg)).2 - nBlocksBlock msg) none := by
  have harea := (cdNN_spec (nBlocksBlock msg)).1
  have hlen := blockColorArray_length msg
  have hfill := fillSeq_data (blockColorArray msg)
    (computeDimensionsNN (nBlocksBlock msg)).1 (computeDimensionsNN (nBlocksBlock msg)).2
    []
    ((computeDimensionsNN (nBlocksBlock msg)).1 * (computeDimensionsNN (nBlocksBlock msg)).2)
    (by omega)
  simpa [mkBlockGC, ColorGrid.empty, hlen] using hfill

theorem mkStegGC_data (msg : List Nat) (h : ∀ c ∈ msg, c ≤ 126) :
    (mkStegGC msg).grid.data =
      (stegColorArray msg).map some ++
        List.replicate
          ((computeDimensionsNN (nBlocksSteg msg)).1 *
              (computeDimensionsNN (nBlocksSteg msg)).2 - nBlocksSteg msg) none := by
  have harea := (cdNN_spec (nBlocksSteg msg)).1
  have hlen := stegColorArray_length msg h
  have hfill := fillSeq_data (stegColorArray msg)
    (computeDimensionsNN (nBlocksSteg msg)).1 (computeDimensionsNN (nBlocksSteg msg)).2
    []
    ((computeDimensionsNN (nBlocksSteg msg)).1 * (computeDimensionsNN (nBlocksSteg msg)).2)
    (by omega)
  simpa [mkStegGC, ColorGrid.empty, hlen] using hfill

theorem digitsRevAux_lt (b : Nat) (hb : 2 ≤ b) :
    ∀ f v x : Nat, x ∈ digitsRevAux b f v → x < b := by
  intro f
  induction f with
  | zero => intro v x hx; simp [digitsRevAux] at hx
  | succ f ih =>
    intro v x hx
    by_cases hv : v = 0
    · simp [digitsRevAux, hv] at hx
    · simp only [digitsRevAux, hv, if_false, List.mem_cons] at hx
      rcases hx with rfl | hx
      · exact Nat.mod_lt v (by omega)
      · exact ih (v / b) x hx

theorem stegBitsOf_le (m : List Nat) : ∀ x ∈ stegBitsOf m, x ≤ 1 := by
  intro x hx
  simp only [stegBitsOf, List.mem_flatMap] at hx
  obtain ⟨c, hc, hx⟩ := hx
  simp only [rjust, digitsBE, List.mem_append, List.mem_replicate, List.mem_reverse] at hx
  rcases hx with ⟨_, rfl⟩ | hx
  · omega
  · have := digitsRevAux_lt 2 (by omega) c c x hx
    omega

/-! ## Slice and padding lemmas -/

theorem batched3_sl : ∀ (m sl : List Nat), sl ∈ batched3 m →
    sl.length ≤ 3 ∧ ∀ x ∈ sl, x ∈ m
  | [], sl => by simp [batched3]
  | [a], sl => by
    intro hsl
    simp only [batched3, List.mem_singleton] at hsl
    subst hsl
    exact ⟨by simp, by simp⟩
  | [a, b], sl => by
    intro hsl
    simp only [batched3, List.mem_singleton] at hsl
    subst hsl
    exact ⟨by simp, by simp⟩
  | a :: b :: c :: rest, sl => by
    intro hsl
    simp only [batched3, List.mem_cons] at hsl
    rcases hsl with rfl | hsl
    · refine ⟨by simp, fun x hx => ?_⟩
      simp only [List.mem_cons, List.not_mem_nil, or_false] at hx
      rcases hx with rfl | rfl | rfl <;> simp
    · have h2 := batched3_sl rest sl hsl
      exact ⟨h2.1, fun x hx => by have h3 := h2.2 x hx; simp [h3]⟩

theorem padTo3_length (sl : List Nat) (h : sl.length ≤ 3) : (padTo3 sl).length = 3 := by
  simp [padTo3, RGBLEN]
  omega

theorem padTo3_mem (sl : List Nat) (x : Nat) (hx : x ∈ padTo3 sl) : x ∈ sl ∨ x = 0 := by
  simp [padTo3] at hx
  rcases hx with h | h
  · exact Or.inl h
  · exact Or.inr h.2

theorem batched3_flatMap_pad : ∀ m : List Nat, (batched3 m).flatMap padTo3 = pad3 m
  | [] => by simp [batched3, pad3, npad3]
  | [a] => by
    simp [batched3, padTo3, pad3, npad3, RGBLEN]
  | [a, b] => by
    simp [batched3, padTo3, pad3, npad3, RGBLEN]
  | a :: b :: c :: rest => by
    have ih := batched3_flatMap_pad rest
    simp only [batched3, List.flatMap_cons, ih, pad3, npad3, RGBLEN, List.length_cons]
    have harith : (3 - (rest.length + 1 + 1 + 1) % 3) % 3 = (3 - rest.length % 3) % 3 := by
      omega
    simp [padTo3, RGBLEN, harith]

theorem pad3_length (l : List Nat) : (pad3 l).length = 3 * ((l.length + 2) / 3) := by
  simp [pad3, npad3, RGBLEN]
  omega

/-! ## Channel streams of the encoded color arrays -/

theorem pack_stream : ∀ Y : List (List Nat),
    (∀ sl ∈ Y, sl.length = 3 ∧ ∀ v ∈ sl, v ≤ 252) →
    (Y.map Color.fromRGB).flatMap colorChannels = Y.flatten := by
  intro Y
  induction Y with
  | nil => intro hY; simp
  | cons y Y2 ih =>
    intro hY
    have hy := hY y (List.mem_cons_self y Y2)
    obtain ⟨a, b, c, rfl⟩ := List.length_eq_three.mp hy.1
    have ha : a ≤ 252 := hy.2 a (by simp)
    have hb : b ≤ 252 := hy.2 b (by simp)
    have hc : c ≤ 252 := hy.2 c (by simp)
    simp only [List.map_cons, List.flatMap_cons, List.flatten_cons]
    rw [colorChannels_fromRGB a b c (by omega) (by omega) (by omega)]
    rw [ih (fun sl hsl => hY sl (List.mem_cons_of_mem _ hsl))]

theorem overlayVals_nil_left (cs : List Nat) : overlayVals [] cs = cs := by
  cases cs <;> rfl

theorem overlayVals_nil_right (bs : List Nat) : overlayVals bs [] = bs := by
  cases bs <;> rfl

theorem overlay_pack : ∀ X Y : List (List Nat),
    (∀ sl ∈ X, sl.length = 3 ∧ ∀ v ∈ sl, v ≤ 252) →
    (∀ sl ∈ Y, sl.length = 3 ∧ ∀ v ∈ sl, v ≤ 1) →
    (overlayVals (X.map Color.fromRGB) (Y.map Color.fromRGB)).flatMap colorChannels =
      overlayVals X.flatten Y.flatten := by
  intro X
  induction X with
  | nil =>
    intro Y hX hY
    simp only [List.map_nil, overlayVals_nil_left, List.flatten_nil]
    exact pack_stream Y (fun sl hsl => ⟨(hY sl hsl).1, fun v hv => by
      have := (hY sl hsl).2 v hv; omega⟩)
  | cons x X2 ih =>
    intro Y hX hY
    cases Y with
    | nil =>
      simp only [List.map_nil, List.flatten_nil]
      rw [overlayVals_nil_right, overlayVals_nil_right]
      exact pack_stream (x :: X2) hX
    | cons y Y2 =>
      have hx := hX x (List.mem_cons_self x X2)
      have hy := hY y (List.mem_cons_self y Y2)
      obtain ⟨a, b, c, rfl⟩ := List.length_eq_three.mp hx.1
      obtain ⟨d, e, f, rfl⟩ := List.length_eq_three.mp hy.1
      have ha : a ≤ 252 := hx.2 a (by simp)
      have hb : b ≤ 252 := hx.2 b (by simp)
      have hc : c ≤ 252 := hx.2 c (by simp)
      have hd : d ≤ 1 := hy.2 d (by simp)
      have he : e ≤ 1 := hy.2 e (by simp)
      have hf : f ≤ 1 := hy.2 f (by simp)
      simp only [List.map_cons, overlayVals, List.flatMap_cons, List.flatten_cons]
      have hsum : Color.fromRGB [a, b, c] + Color.fromRGB [d, e, f] =
          (a + d) * 65536 + (b + e) * 256 + (c + f) := by
        rw [fromRGB_cons3, fromRGB_cons3]; ring
      rw [hsum, colorChannels_packed (a + d) (b + e) (c + f) (by omega) (by omega) (by omega)]
      rw [ih Y2 (fun sl hsl => hX sl (List.mem_cons_of_mem _ hsl))
        (fun sl hsl => hY sl (List.mem_cons_of_mem _ hsl))]
      simp [overlayVals]

theorem blockColorArray_as_map (m : List Nat) :
    blockColorArray m =
      ((batched3 m).map (fun sl => (padTo3 sl).map charToChannel)).map Color.fromRGB := by
  simp [blockColorArray, List.map_map]

theorem stegColorArray_as_map (m : List Nat) :
    stegColorArray m = ((batched3 (stegBitsOf m)).map padTo3).map Color.fromRGB := by
  simp [stegColorArray, List.map_map]

theorem block_chunks_flatten (m : List Nat) :
    ((batched3 m).map (fun sl => (padTo3 sl).map charToChannel)).flatten =
      (pad3 m).map charToChannel := by
  have h1 : ((batched3 m).map (fun sl => (padTo3 sl).map charToChannel)) =
      ((batched3 m).map padTo3).map (fun s => s.map charToChannel) := by
    simp [List.map_map]
  rw [h1, ← List.map_flatten]
  rw [show ((batched3 m).map padTo3).flatten = (batched3 m).flatMap padTo3 from rfl]
  rw [batched3_flatMap_pad]

theorem steg_chunks_flatten (m : List Nat) :
    ((batched3 (stegBitsOf m)).map padTo3).flatten = pad3 (stegBitsOf m) := by
  rw [show ((batched3 (stegBitsOf m)).map padTo3).flatten =
    (batched3 (stegBitsOf m)).flatMap padTo3 from rfl]
  rw [batched3_flatMap_pad]

theorem block_chunks_ok (m : List Nat) (hm : ∀ c ∈ m, c ≤ 126) :
    ∀ sl ∈ (batched3 m).map (fun sl => (padTo3 sl).map charToChannel),
      sl.length = 3 ∧ ∀ v ∈ sl, v ≤ 252 := by
  intro sl hsl
  simp only [List.mem_map] at hsl
  obtain ⟨sl0, hsl0, rfl⟩ := hsl
  have hb := batched3_sl m sl0 hsl0
  constructor
  · simp [padTo3_length sl0 hb.1]
  · intro v hv
    simp only [List.mem_map] at hv
    obtain ⟨w, hw, rfl⟩ := hv
    rcases padTo3_mem sl0 w hw with h | rfl
    · have := hm w (hb.2 w h)
      simp [charToChannel]
      omega
    · simp [charToChannel]

theorem steg_chunks_ok (m : List Nat) :
    ∀ sl ∈ (batched3 (stegBitsOf m)).map padTo3, sl.length = 3 ∧ ∀ v ∈ sl, v ≤ 1 := by
  intro sl hsl
  simp only [List.mem_map] at hsl
  obtain ⟨sl0, hsl0, rfl⟩ := hsl
  have hb := batched3_sl (stegBitsOf m) sl0 hsl0
  constructor
  · exact padTo3_length sl0 hb.1
  · intro v hv
    rcases padTo3_mem sl0 v hv with h | rfl
    · exact stegBitsOf_le m v (hb.2 v h)
    · omega

/-! ## Overlay decode lemmas -/

theorem map_div2_small (cs : List Nat) (h : ∀ y ∈ cs, y ≤ 1) :
    cs.map channelToChar = List.replicate cs.length 0 := by
  induction cs with
  | nil => rfl
  | cons c cs2 ih =>
    have hc := h c (List.mem_cons_self c cs2)
    simp only [List.map_cons, List.length_cons, List.replicate_succ]
    rw [ih (fun y hy => h y (List.mem_cons_of_mem _ hy))]
    simp only [List.cons.injEq, and_true, channelToChar]
    omega

theorem map_mod2_even (bs : List Nat) (h : ∀ x ∈ bs, x % 2 = 0) :
    bs.map (· % 2) = List.replicate bs.length 0 := by
  induction bs with
  | nil => rfl
  | cons b bs2 ih =>
    have hb := h b (List.mem_cons_self b bs2)
    simp only [List.map_cons, List.length_cons, List.replicate_succ]
    rw [ih (fun x hx => h x (List.mem_cons_of_mem _ hx))]
    simp only [List.cons.injEq, and_true]
    omega

theorem map_mod2_id (cs : List Nat) (h : ∀ y ∈ cs, y ≤ 1) : cs.map (· % 2) = cs := by
  have h2 : ∀ y ∈ cs, y % 2 = id y := fun y hy => by have := h y hy; simp; omega
  rw [List.map_eq_map_iff.mpr h2, List.map_id]

theorem overlay_map_div2 : ∀ bs cs : List Nat,
    (∀ x ∈ bs, x % 2 = 0) → (∀ y ∈ cs, y ≤ 1) →
    (overlayVals bs cs).map channelToChar =
      bs.map channelToChar ++ List.replicate (cs.length - bs.length) 0 := by
  intro bs
  induction bs with
  | nil =>
    intro cs h1 h2
    rw [overlayVals_nil_left]
    simp only [List.map_nil, List.nil_append, List.length_nil, Nat.sub_zero]
    exact map_div2_small cs h2
  | cons b bs2 ih =>
    intro cs h1 h2
    cases cs with
    | nil =>
      rw [overlayVals_nil_right]
      simp
    | cons c cs2 =>
      simp only [overlayVals, List.map_cons, List.length_cons]
      have hb := h1 b (List.mem_cons_self b bs2)
      have hc := h2 c (List.mem_cons_self c cs2)
      have hbc : channelToChar (b + c) = channelToChar b := by
        simp only [channelToChar]
        omega
      rw [hbc, ih cs2 (fun x hx => h1 x (List.mem_cons_of_mem _ hx))
        (fun y hy => h2 y (List.mem_cons_of_mem _ hy))]
      simp [Nat.succ_sub_succ]

theorem overlay_map_mod2 : ∀ bs cs : List Nat,
    (∀ x ∈ bs, x % 2 = 0) → (∀ y ∈ cs, y ≤ 1) →
    (overlayVals bs cs).map (· % 2) = cs ++ List.replicate (bs.length - cs.length) 0 := by
  intro bs
  induction bs with
  | nil =>
    intro cs h1 h2
    rw [overlayVals_nil_left]
    simp only [List.length_nil, Nat.zero_sub, List.replicate_zero, List.append_nil]
    exact map_mod2_id cs h2
  | cons b bs2 ih =>
    intro cs h1 h2
    cases cs with
    | nil =>
      rw [overlayVals_nil_right]
      simp only [List.nil_append, List.length_nil, Nat.sub_zero]
      exact map_mod2_even _ h1
    | cons c cs2 =>
      simp only [overlayVals, List.map_cons, List.length_cons]
      have hb := h1 b (List.mem_cons_self b bs2)
      have hc := h2 c (List.mem_cons_self c cs2)
      have hbc : (b + c) % 2 = c := by omega
      rw [hbc, ih cs2 (fun x hx => h1 x (List.mem_cons_of_mem _ hx))
        (fun y hy => h2 y (List.mem_cons_of_mem _ hy))]
      simp [Nat.succ_sub_succ]

/-! ## Decode pipeline on a rendered block-kind layer -/

theorem decodeChannels_block (g : GC) (h : g.kind = CodeKind.block) :
    decodeChannels none (rectsOf g) = (g.grid.data.filterMap id).flatMap colorChannels := by
  have hld : ¬(("light" : String) = "dark") := by decide
  simp [decodeChannels, rectsOf, lightColored, h, List.flatMap_map, applyHint, hld,
    Function.comp]

theorem decodeBlockOf_data (g : GC) (h : g.kind = CodeKind.block) :
    decodeBlockOf g = ((g.grid.data.filterMap id).flatMap colorChannels).map channelToChar := by
  rw [decodeBlockOf, decodeBlockMsg, decodeChannels_block g h]

theorem decodeStegOf_data (g : GC) (h : g.kind = CodeKind.block) :
    decodeStegOf g =
      decodeStegLoop (((g.grid.data.filterMap id).flatMap colorChannels).map (· % 2)) := by
  rw [decodeStegOf, decodeStegMsg, decodeChannels_block g h]

/-! ## The steganography decode loop -/

theorem decodeStegLoop_zeros : ∀ z : Nat, decodeStegLoop (List.replicate z 0) = [] := by
  intro z
  by_cases hz : z < 7
  · interval_cases z <;> rfl
  · obtain ⟨w, rfl⟩ : ∃ w, z = 7 + w := ⟨z - 7, by omega⟩
    rw [List.replicate_add]
    rw [show List.replicate 7 (0 : Nat) = [0, 0, 0, 0, 0, 0, 0] from rfl]
    simp only [List.cons_append, List.nil_append]
    simp [decodeStegLoop, intBase2]

theorem digitsFix27_reverse (c : Nat) :
    (digitsFix 2 7 c).reverse =
      [c / 64 % 2, c / 32 % 2, c / 16 % 2, c / 8 % 2, c / 4 % 2, c / 2 % 2, c % 2] := by
  simp only [digitsFix, List.reverse_cons, List.reverse_nil, List.nil_append,
    List.cons_append, List.append_assoc, List.singleton_append, List.append_nil]
  simp only [List.cons.injEq, and_true]
  omega

theorem intBase2_digitsFix27 (c : Nat) (h : c < 128) :
    intBase2 ((digitsFix 2 7 c).reverse) = c := by
  unfold intBase2
  have h2 := foldl_digitsFix 2 7 c 0
  rw [h2]
  norm_num
  omega

theorem decodeStegLoop_msg : ∀ s : List Nat, (∀ c ∈ s, 32 ≤ c ∧ c ≤ 126) →
    ∀ z : Nat, decodeStegLoop (stegBitsOf s ++ List.replicate z 0) = s := by
  intro s
  induction s with
  | nil =>
    intro hs z
    simp only [stegBitsOf, List.flatMap_nil, List.nil_append]
    exact decodeStegLoop_zeros z
  | cons c s2 ih =>
    intro hs z
    have hc := hs c (List.mem_cons_self c s2)
    have hbits : rjust ASCIILEN (digitsBE 2 c) = (digitsFix 2 7 c).reverse := by
      have hlt : c < 2 ^ 7 := by omega
      simpa [ASCIILEN] using rjust_digitsBE 2 7 c (by omega) hlt
    rw [show stegBitsOf (c :: s2) = rjust ASCIILEN (digitsBE 2 c) ++ stegBitsOf s2 from by
      simp [stegBitsOf]]
    rw [hbits, digitsFix27_reverse]
    simp only [List.cons_append, List.nil_append]
    have hval : intBase2 [c / 64 % 2, c / 32 % 2, c / 16 % 2, c / 8 % 2, c / 4 % 2,
        c / 2 % 2, c % 2] = c := by
      rw [← digitsFix27_reverse]
      exact intBase2_digitsFix27 c (by omega)
    simp only [decodeStegLoop, hval]
    have hcond : ¬(c = 0 ∨ c = 2 ^ 7 - 1) := by
      have h127 : (2 : Nat) ^ 7 - 1 = 127 := by norm_num
      rw [h127]
      omega
    rw [if_neg hcond]
    rw [ih (fun x hx => hs x (List.mem_cons_of_mem _ hx)) z]

/-! ## C1: block encode/decode round trip -/

theorem blockCodeInit_eq (m : List Nat) (hm : ∀ c ∈ m, 32 ≤ c ∧ c ≤ 126) :
    blockCodeInit m none none = Except.ok (mkBlockGC m) := by
  rw [blockCodeInit, ensurePrintableASCII_ok m hm]
  rfl

theorem stegCodeInit_eq (m : List Nat) (hm : ∀ c ∈ m, 32 ≤ c ∧ c ≤ 126) :
    stegCodeInit m none none = Except.ok (mkStegGC m) := by
  rw [stegCodeInit, ensurePrintableASCII_ok m hm]
  rfl

theorem filterMap_pad (l : List Nat) (k : Nat) :
    (l.map some ++ List.replicate k (none : Option Nat)).filterMap id = l := by
  simp [List.filterMap_append]

theorem decodeBlock_of_mkBlock (m : List Nat) (hm : ∀ c ∈ m, c ≤ 126) :
    decodeBlockOf (mkBlockGC m) = pad3 m := by
  rw [decodeBlockOf_data (mkBlockGC m) rfl, mkBlockGC_data, filterMap_pad]
  rw [blockColorArray_as_map, pack_stream _ (block_chunks_ok m hm), block_chunks_flatten,
    List.map_map]
  have h2 : ∀ x ∈ pad3 m, (channelToChar ∘ charToChannel) x = id x := fun x hx => by
    simp [channelToChar, charToChannel]
  rw [List.map_eq_map_iff.mpr h2, List.map_id]

/-- C1: for every printable-ASCII message, constructing a `BlockCode` from it
(no composition) and block-decoding its rendered grid colors in row-major
order with the "light" hint yields the message padded with NUL codes to a
multiple of 3; in particular the first `len(m)` decoded characters are the
message itself. -/
theorem c1_block_roundtrip (m : List Nat) (hm : ∀ c ∈ m, 32 ≤ c ∧ c ≤ 126) :
    blockCodeInit m none none = Except.ok (mkBlockGC m) ∧
    decodeBlockOf (mkBlockGC m) = m ++ List.replicate (npad3 m.length) 0 ∧
    (decodeBlockOf (mkBlockGC m)).take m.length = m := by
  have hdec : decodeBlockOf (mkBlockGC m) = pad3 m :=
    decodeBlock_of_mkBlock m (fun c hc => (hm c hc).2)
  refine ⟨blockCodeInit_eq m hm, hdec, ?_⟩
  rw [hdec, pad3, List.take_left]

/-- C1 witness: the spec's concrete scenario, message "Hi" (codes 72, 105):
one 1×1 grid cell of color 0x90D200, decoding back to "Hi" plus one NUL. -/
theorem c1_witness :
    blockCodeInit [72, 105] none none = Except.ok (mkBlockGC [72, 105]) ∧
    decodeBlockOf (mkBlockGC [72, 105]) = [72, 105, 0] ∧
    (decodeBlockOf (mkBlockGC [72, 105])).take 2 = [72, 105] := by
  have h := c1_block_roundtrip [72, 105] (by decide)
  exact ⟨h.1, by rw [h.2.1]; rfl, h.2.2⟩

/-! ## The composition walk on a block target -/

theorem zipAddSome_nil (tf : Nat → Nat) (xs : List (Option Nat)) :
    zipAddSome tf xs [] = xs := by
  cases xs <;> rfl

theorem addWalk_block (tf : Nat → Nat) :
    ∀ (cols : List Nat) (xs tail : List (Option Nat)),
      (tail = [] ∨ ∃ t2, tail = none :: t2) → cols.length ≤ xs.length →
      addWalk CodeKind.block tf xs (cols.map some ++ tail) =
        Except.ok (zipAddSome tf xs cols) := by
  intro cols
  induction cols with
  | nil =>
    intro xs tail htail hlen
    rw [zipAddSome_nil]
    cases xs with
    | nil => rfl
    | cons x xs2 =>
      rcases htail with rfl | ⟨t2, rfl⟩
      · simp [addWalk, skipNonesQ]
      · simp [addWalk, skipNonesQ]
  | cons c cs ih =>
    intro xs tail htail hlen
    cases xs with
    | nil => simp at hlen
    | cons x xs2 =>
      simp only [List.map_cons, List.cons_append]
      simp only [addWalk, skipNonesQ]
      rw [ih xs2 tail htail (by simpa using hlen)]
      rfl

theorem zipAddSome_filterMap (tf : Nat → Nat) :
    ∀ (cs B : List Nat) (m : Nat), cs.length ≤ B.length + m →
      (zipAddSome tf (B.map some ++ List.replicate m (none : Option Nat)) cs).filterMap id =
        overlayVals B (cs.map tf) := by
  intro cs
  induction cs with
  | nil =>
    intro B m hlen
    rw [zipAddSome_nil, List.map_nil, overlayVals_nil_right]
    exact filterMap_pad B m
  | cons c cs2 ih =>
    intro B m hlen
    cases B with
    | cons b B2 =>
      simp only [List.map_cons, List.cons_append, zipAddSome]
      rw [show Color.addOpt (some b) (tf c) = b + tf c from rfl]
      rw [List.filterMap_cons]
      simp only [id_eq, List.append_eq]
      rw [ih B2 m (by simp only [List.length_cons] at hlen; omega)]
      simp [overlayVals]
    | nil =>
      cases m with
      | zero => simp at hlen
      | succ m2 =>
        simp only [List.map_nil, List.nil_append, List.replicate_succ, zipAddSome]
        rw [show Color.addOpt none (tf c) = tf c from rfl]
        rw [List.filterMap_cons]
        simp only [id_eq]
        have h2 := ih [] m2 (by simp only [List.length_cons, List.length_nil] at hlen; omega)
        simp only [List.map_nil, List.nil_append] at h2
        rw [h2, overlayVals_nil_left, List.map_cons, overlayVals_nil_left]

/-! ## Dimensions and lengths of the constructed layers -/

theorem mkBlockGC_dims (b : List Nat) :
    (mkBlockGC b).grid.nRows = (computeDimensionsNN (nBlocksBlock b)).1 ∧
    (mkBlockGC b).grid.nCols = (computeDimensionsNN (nBlocksBlock b)).2 := by
  exact fillSeq_dims (blockColorArray b) _ 0

theorem mkBlockGC_area (b : List Nat) :
    (mkBlockGC b).grid.area =
      (computeDimensionsNN (nBlocksBlock b)).1 * (computeDimensionsNN (nBlocksBlock b)).2 := by
  have h := mkBlockGC_dims b
  rw [ColorGrid.area, h.1, h.2]

theorem mkBlockGC_data_length (b : List Nat) :
    (mkBlockGC b).grid.data.length =
      (computeDimensionsNN (nBlocksBlock b)).1 * (computeDimensionsNN (nBlocksBlock b)).2 := by
  rw [mkBlockGC_data]
  simp [blockColorArray_length]
  have := (cdNN_spec (nBlocksBlock b)).1
  omega

theorem nBlocksSteg_le_area (b s : List Nat)
    (hcap : s.length ≤ (mkBlockGC b).grid.area * RGBLEN / ASCIILEN) :
    nBlocksSteg s ≤ (mkBlockGC b).grid.area := by
  have h7 : s.length * ASCIILEN ≤ (mkBlockGC b).grid.area * RGBLEN :=
    (Nat.le_div_iff_mul_le (by norm_num [ASCIILEN])).mp hcap
  simp only [nBlocksSteg, ASCIILEN, RGBLEN] at *
  omega

/-! ## The composed grid: steg layer added onto a block layer -/

theorem addCode_block_steg (tm sm : List Nat) (tg sg : ColorGrid) (tc sc : Option CodeKind)
    (hcap : sm.length ≤ tg.area * RGBLEN / ASCIILEN) (res : List (Option Nat))
    (hwalk : addWalk CodeKind.block id tg.data sg.data = Except.ok res) :
    addCode ⟨CodeKind.block, tm, tg, tc⟩ ⟨CodeKind.steg, sm, sg, sc⟩ =
      Except.ok ⟨CodeKind.block, tm, { tg with data := res }, some CodeKind.steg⟩ := by
  simp only [addCode, stegMaxQ]
  rw [if_neg (by omega : ¬(sm.length > tg.area * RGBLEN / ASCIILEN))]
  rw [show transformOf CodeKind.steg = id from rfl]
  rw [hwalk]

theorem composed_block_steg (b s : List Nat) (hb126 : ∀ c ∈ b, c ≤ 126)
    (hs126 : ∀ c ∈ s, c ≤ 126)
    (hcap : s.length ≤ (mkBlockGC b).grid.area * RGBLEN / ASCIILEN) :
    addCode (mkBlockGC b) (mkStegGC s) =
      Except.ok (composedOrSelf (mkBlockGC b) (mkStegGC s)) ∧
    (composedOrSelf (mkBlockGC b) (mkStegGC s)).kind = CodeKind.block ∧
    (composedOrSelf (mkBlockGC b) (mkStegGC s)).grid.data.filterMap id =
      overlayVals (blockColorArray b) (stegColorArray s) := by
  have hns := nBlocksSteg_le_area b s hcap
  have hlenS := stegColorArray_length s hs126
  have hlenD := mkBlockGC_data_length b
  have hA := mkBlockGC_area b
  have hsrc := mkStegGC_data s hs126
  have hnb := blockColorArray_length b
  have hnbA := (cdNN_spec (nBlocksBlock b)).1
  have htail : List.replicate
        ((computeDimensionsNN (nBlocksSteg s)).1 * (computeDimensionsNN (nBlocksSteg s)).2 -
          nBlocksSteg s) (none : Option Nat) = [] ∨
      ∃ t2, List.replicate
        ((computeDimensionsNN (nBlocksSteg s)).1 * (computeDimensionsNN (nBlocksSteg s)).2 -
          nBlocksSteg s) (none : Option Nat) = none :: t2 := by
    cases hk : (computeDimensionsNN (nBlocksSteg s)).1 * (computeDimensionsNN (nBlocksSteg s)).2 -
        nBlocksSteg s with
    | zero => exact Or.inl rfl
    | succ k2 => exact Or.inr ⟨List.replicate k2 none, by rw [List.replicate_succ]⟩
  have hwalk : addWalk CodeKind.block id (mkBlockGC b).grid.data (mkStegGC s).grid.data =
      Except.ok (zipAddSome id (mkBlockGC b).grid.data (stegColorArray s)) := by
    rw [hsrc]
    exact addWalk_block id (stegColorArray s) (mkBlockGC b).grid.data _ htail
      (by rw [hlenS, hlenD]; rw [hA] at hns; exact hns)
  have haddCode : addCode (mkBlockGC b) (mkStegGC s) =
      Except.ok ⟨CodeKind.block, b,
        { (mkBlockGC b).grid with
          data := zipAddSome id (mkBlockGC b).grid.data (stegColorArray s) },
        some CodeKind.steg⟩ :=
    addCode_block_steg b s (mkBlockGC b).grid (mkStegGC s).grid none none hcap _ hwalk
  have hcomp : composedOrSelf (mkBlockGC b) (mkStegGC s) =
      ⟨CodeKind.block, b,
        { (mkBlockGC b).grid with
          data := zipAddSome id (mkBlockGC b).grid.data (stegColorArray s) },
        some CodeKind.steg⟩ := by
    rw [composedOrSelf, haddCode]
  refine ⟨by rw [haddCode, hcomp], by rw [hcomp], ?_⟩
  rw [hcomp]
  show (zipAddSome id (mkBlockGC b).grid.data (stegColorArray s)).filterMap id = _
  rw [mkBlockGC_data]
  rw [zipAddSome_filterMap id (stegColorArray s) (blockColorArray b) _
    (by rw [hlenS, hnb]; rw [hA] at hns; omega)]
  rw [List.map_id]

theorem map_double_half (l : List Nat) : (l.map charToChannel).map channelToChar = l := by
  rw [List.map_map]
  have h2 : ∀ x ∈ l, (channelToChar ∘ charToChannel) x = id x := fun x hx => by
    simp [channelToChar, charToChannel]
  rw [List.map_eq_map_iff.mpr h2, List.map_id]

/-! ## C2: steg-onto-block composition and independent decode -/

/-- C2 (amended): composing a `StegCode` for `s` onto the `BlockCode` for `b`
via `addCode` (within `stegMax` capacity) succeeds, and decoding the
composed grid with the "light" hint yields exactly `s` as the steg message;
the block-decoded message is the uncomposed block decode EXTENDED with
`3*(nSteg - nBlock)` NUL characters (when the steg layer occupies more cells
than the block message, the extra cells decode as NULs) — in particular the
first `len(b)` characters are still exactly `b`. The non-interference
reasons of the claim hold: block channels stay even (×2 scaling), steg only
toggles each channel's LSB. -/
theorem c2_steg_on_block (b s : List Nat)
    (hb : ∀ c ∈ b, 32 ≤ c ∧ c ≤ 126) (hs : ∀ c ∈ s, 32 ≤ c ∧ c ≤ 126)
    (hcap : s.length ≤ (mkBlockGC b).grid.area * RGBLEN / ASCIILEN) :
    addCode (mkBlockGC b) (mkStegGC s) =
      Except.ok (composedOrSelf (mkBlockGC b) (mkStegGC s)) ∧
    decodeBlockOf (composedOrSelf (mkBlockGC b) (mkStegGC s)) =
      decodeBlockOf (mkBlockGC b) ++
        List.replicate (3 * nBlocksSteg s - 3 * nBlocksBlock b) 0 ∧
    (decodeBlockOf (composedOrSelf (mkBlockGC b) (mkStegGC s))).take b.length = b ∧
    decodeStegOf (composedOrSelf (mkBlockGC b) (mkStegGC s)) = s := by
  have hb126 : ∀ c ∈ b, c ≤ 126 := fun c hc => (hb c hc).2
  have hs126 : ∀ c ∈ s, c ≤ 126 := fun c hc => (hs c hc).2
  obtain ⟨hadd, hkind, hfm⟩ := composed_block_steg b s hb126 hs126 hcap
  have hstream : ((composedOrSelf (mkBlockGC b) (mkStegGC s)).grid.data.filterMap id).flatMap
      colorChannels = overlayVals ((pad3 b).map charToChannel) (pad3 (stegBitsOf s)) := by
    rw [hfm, blockColorArray_as_map, stegColorArray_as_map,
      overlay_pack _ _ (block_chunks_ok b hb126) (steg_chunks_ok s),
      block_chunks_flatten, steg_chunks_flatten]
  have hevens : ∀ x ∈ (pad3 b).map charToChannel, x % 2 = 0 := by
    intro x hx
    simp only [List.mem_map] at hx
    obtain ⟨w, hw, rfl⟩ := hx
    simp [charToChannel]
  have hsmall : ∀ y ∈ pad3 (stegBitsOf s), y ≤ 1 := by
    intro y hy
    simp only [pad3, List.mem_append, List.mem_replicate] at hy
    rcases hy with hy | hy
    · exact stegBitsOf_le s y hy
    · omega
  have hlen1 : ((pad3 b).map charToChannel).length = 3 * nBlocksBlock b := by
    simp only [List.length_map, pad3_length, nBlocksBlock, RGBLEN]
    omega
  have hlen2 : (pad3 (stegBitsOf s)).length = 3 * nBlocksSteg s := by
    rw [pad3_length, stegBitsOf_length s hs126]
    simp only [nBlocksSteg, ASCIILEN, RGBLEN]
    omega
  have hblockdec : decodeBlockOf (composedOrSelf (mkBlockGC b) (mkStegGC s)) =
      pad3 b ++ List.replicate (3 * nBlocksSteg s - 3 * nBlocksBlock b) 0 := by
    rw [decodeBlockOf_data _ hkind, hstream, overlay_map_div2 _ _ hevens hsmall,
      map_double_half, hlen1, hlen2]
  have huncomp : decodeBlockOf (mkBlockGC b) = pad3 b := decodeBlock_of_mkBlock b hb126
  refine ⟨hadd, ?_, ?_, ?_⟩
  · rw [hblockdec, huncomp]
  · rw [hblockdec, pad3, List.append_assoc, ← List.replicate_add, List.take_left]
  · rw [decodeStegOf_data _ hkind, hstream, overlay_map_mod2 _ _ hevens hsmall, pad3,
      List.append_assoc, ← List.replicate_add]
    exact decodeStegLoop_msg s hs _

/-- C2 witness: 7-character block message "ABCDEFG" (2×2 grid, `stegMax = 1`)
composed with the steg message "H": composition succeeds and the steg decode
is exactly "H". -/
theorem c2_witness :
    addCode (mkBlockGC [65, 66, 67, 68, 69, 70, 71]) (mkStegGC [72]) =
      Except.ok (composedOrSelf (mkBlockGC [65, 66, 67, 68, 69, 70, 71]) (mkStegGC [72])) ∧
    decodeBlockOf (composedOrSelf (mkBlockGC [65, 66, 67, 68, 69, 70, 71]) (mkStegGC [72])) =
      decodeBlockOf (mkBlockGC [65, 66, 67, 68, 69, 70, 71]) ++ List.replicate 0 0 ∧
    decodeStegOf (composedOrSelf (mkBlockGC [65, 66, 67, 68, 69, 70, 71]) (mkStegGC [72])) =
      [72] := by
  have h := c2_steg_on_block [65, 66, 67, 68, 69, 70, 71] [72]
    (by decide) (by decide) (by decide)
  exact ⟨h.1, h.2.1, h.2.2.2⟩

/-- C2 counterexample to the claim as stated: a 28-character block message
(10 blocks on a 4×3 grid, `stegMax = 5`) composed with the 5-character steg
message "Hello" (12 steg cells) produces a grid whose block decode has 36
characters, not the 30 of the uncomposed layer — the block-decoded messages
are NOT the same (the composed one carries 6 extra NULs). -/
theorem c2_counterexample :
    c2s.length ≤ (mkBlockGC c2b).grid.area * RGBLEN / ASCIILEN ∧
    addCode (mkBlockGC c2b) (mkStegGC c2s) =
      Except.ok (composedOrSelf (mkBlockGC c2b) (mkStegGC c2s)) ∧
    decodeBlockOf (composedOrSelf (mkBlockGC c2b) (mkStegGC c2s)) ≠
      decodeBlockOf (mkBlockGC c2b) := by
  decide

end QRCC
